import Mathlib

/-!
Verification of the citation-extraction module of the legal-document
dataset pipeline (`create_citation_dataset.py`): the four citation
regular-expression patterns of `CitationParser`, the per-kind record
builders `parse_usc_citation` / `parse_cfr_citation` /
`parse_statute_citation` / `parse_stat_citation`, the combined
`parse_all_citations`, and the context locator `extract_relevant_text`.

Python strings are modelled as `List Char`; the Python string slice
`s[a:b]` (with non-negative clamped bounds) is `pySlice a b`.  Each regular
expression used by the source is compiled by hand into an explicit
matching function that realises CPython `re` semantics at the pattern
in question: leftmost search, ordered alternation, greedy/lazy
repetition with backtracking.  Wherever a greedy or optional
subpattern is compiled without an explicit backtracking search, the
adjacent character classes are disjoint, so the greedy choice is the
only one that can succeed; these arguments are noted at the
definitions.  The character classes `\d`, `\s`, `[a-z]`, `[A-Z]`,
`[a-z0-9]` are modelled by their ASCII meaning.
-/

def chars (s : String) : List Char := s.data

/-- Python `\s`, ASCII part: space, tab, newline, CR, vertical tab, form feed. -/
def isWsC (c : Char) : Bool :=
  c = ' ' || c = '\t' || c = '\n' || c = '\r' || c = Char.ofNat 11 || c = Char.ofNat 12

/-- The character class `[a-z0-9]` used inside parenthesised USC subsections. -/
def isLowDig (c : Char) : Bool :=
  c.isLower || c.isDigit

/-- The single quote character, used when assembling the `sql_query` strings. -/
def sqc : List Char := [Char.ofNat 39]

/-- Python slicing `l[lo:hi]` for non-negative clamped bounds. -/
def pySlice (lo hi : Nat) (l : List Char) : List Char :=
  (l.take hi).drop lo

/-- Optional literal dot, the regex fragment `\.?`.  In every use site the
character that may follow the dot in the pattern is not a dot, so the greedy
choice (consume the dot when present) is the only branch that can succeed. -/
def dropDot : List Char → List Char
  | '.' :: r => r
  | r => r

/-- Optional literal word, regex `(?:<lit>)?`: consume `lit` when it is a
prefix, otherwise leave the text unchanged. -/
def dropLit (lit cs : List Char) : List Char :=
  if lit.isPrefixOf cs then cs.drop lit.length else cs

/-- First separator alternative of the USC/CFR patterns, `\s+[§\s]?`.
`\s+` is greedy, so it swallows the whole whitespace run; the optional class
can then only consume a following `§` (any further whitespace was already
taken).  Consuming the `§` is the only branch that can be followed by the
`\d+` of the section group, because `§` is not a digit. -/
def sepWsOptSign (cs : List Char) : Option (List Char) :=
  let w := cs.takeWhile isWsC
  let r := cs.dropWhile isWsC
  if w.isEmpty then none
  else
    match r with
    | '§' :: r2 => some r2
    | _ => some r

/-- Second and third separator alternatives, `\s+section\s+` and
`\s+sec\.\s+`, instantiated with `lit`. -/
def sepLit (lit : List Char) (cs : List Char) : Option (List Char) :=
  let w := cs.takeWhile isWsC
  let r := cs.dropWhile isWsC
  if w.isEmpty then none
  else if lit.isPrefixOf r then
    let r2 := r.drop lit.length
    let w2 := r2.takeWhile isWsC
    if w2.isEmpty then none else some (r2.dropWhile isWsC)
  else none

/-- The ordered alternation `(?:\s+[§\s]?|\s+section\s+|\s+sec\.\s+)`
followed by the section group `secFn`: each alternative is tried in order
together with its continuation, exactly as the backtracking regex engine
does. -/
def sepSection (secFn : List Char → Option (List Char × List Char))
    (cs : List Char) : Option (List Char × List Char) :=
  ((sepWsOptSign cs).bind secFn) <|>
  ((sepLit (chars "section") cs).bind secFn) <|>
  ((sepLit (chars "sec.") cs).bind secFn)

/-- Greedy iteration `(?:\([a-z0-9]+\))*` of the USC section group.  The
fuel is the length of the input; every iteration consumes at least three
characters, so the fuel can never run out before the iteration stops. -/
def parenGroups : Nat → List Char → List Char × List Char
  | 0, cs => ([], cs)
  | fuel + 1, cs =>
    match cs with
    | '(' :: rest =>
      let inner := rest.takeWhile isLowDig
      let r := rest.dropWhile isLowDig
      if inner.isEmpty then ([], cs)
      else
        match r with
        | ')' :: r2 =>
          let (more, rr) := parenGroups fuel r2
          ('(' :: (inner ++ ')' :: more), rr)
        | _ => ([], cs)
    | _ => ([], cs)

/-- The USC section group `(\d+[a-z]*(?:\([a-z0-9]+\))*)`.  Each greedy
piece is followed by a disjoint character class (digit, lowercase, `(`),
so maximal munch is exact; the pattern ends after the group, so the final
greedy star needs no backtracking. -/
def uscSection (cs : List Char) : Option (List Char × List Char) :=
  let d := cs.takeWhile Char.isDigit
  let r := cs.dropWhile Char.isDigit
  if d.isEmpty then none
  else
    let ls := r.takeWhile Char.isLower
    let r2 := r.dropWhile Char.isLower
    let (subs, r3) := parenGroups r2.length r2
    some (d ++ ls ++ subs, r3)

/-- Anchored match of
`(\d+)\s+U\.?S\.?C\.?(?:ode)?(?:\s+[§\s]?|\s+section\s+|\s+sec\.\s+)(\d+[a-z]*(?:\([a-z0-9]+\))*)`
(`usc_pattern` in `CitationParser.__init__`): on success, the two captured
groups (title, section) and the rest of the text after the match. -/
def uscMatchAt (cs : List Char) : Option ((List Char × List Char) × List Char) :=
  let title := cs.takeWhile Char.isDigit
  let r1 := cs.dropWhile Char.isDigit
  if title.isEmpty then none
  else if (r1.takeWhile isWsC).isEmpty then none
  else
    match r1.dropWhile isWsC with
    | 'U' :: r3 =>
      match dropDot r3 with
      | 'S' :: r5 =>
        match dropDot r5 with
        | 'C' :: r7 =>
          let r9 := dropLit (chars "ode") (dropDot r7)
          match sepSection uscSection r9 with
          | some (sec, rest) => some ((title, sec), rest)
          | none => none
        | _ => none
      | _ => none
    | _ => none

/-- Greedy iteration `(?:\.\d+)*` of the CFR section group (fuelled like
`parenGroups`; each iteration consumes at least two characters). -/
def dotGroups : Nat → List Char → List Char × List Char
  | 0, cs => ([], cs)
  | fuel + 1, cs =>
    match cs with
    | '.' :: rest =>
      let d := rest.takeWhile Char.isDigit
      if d.isEmpty then ([], cs)
      else
        let (more, rr) := dotGroups fuel (rest.dropWhile Char.isDigit)
        ('.' :: (d ++ more), rr)
    | _ => ([], cs)

/-- The CFR section group `(\d+(?:\.\d+)*)`. -/
def cfrSection (cs : List Char) : Option (List Char × List Char) :=
  let d := cs.takeWhile Char.isDigit
  let r := cs.dropWhile Char.isDigit
  if d.isEmpty then none
  else
    let (dots, r2) := dotGroups r.length r
    some (d ++ dots, r2)

/-- Anchored match of
`(\d+)\s+C\.?F\.?R\.?(?:\s+[§\s]?|\s+section\s+|\s+sec\.\s+)(\d+(?:\.\d+)*)`
(`cfr_pattern`): groups (title, section) and the rest. -/
def cfrMatchAt (cs : List Char) : Option ((List Char × List Char) × List Char) :=
  let title := cs.takeWhile Char.isDigit
  let r1 := cs.dropWhile Char.isDigit
  if title.isEmpty then none
  else if (r1.takeWhile isWsC).isEmpty then none
  else
    match r1.dropWhile isWsC with
    | 'C' :: r3 =>
      match dropDot r3 with
      | 'F' :: r5 =>
        match dropDot r5 with
        | 'R' :: r7 =>
          match sepSection cfrSection (dropDot r7) with
          | some (sec, rest) => some ((title, sec), rest)
          | none => none
        | _ => none
      | _ => none
    | _ => none

/-- Anchored match of `(?:Public\s+Law|P\.L\.)\s+(\d+)[-–—]?(\d*)`
(`statute_pattern`): groups (congress, law number, possibly empty) and the
rest.  The two keyword alternatives are tried in order; their
continuations cannot rescue a failed keyword because the keywords diverge
at their second character. -/
def plMatchAt (cs : List Char) : Option ((List Char × List Char) × List Char) :=
  let afterKw : Option (List Char) :=
    (if (chars "Public").isPrefixOf cs then
      let r := cs.drop 6
      if (r.takeWhile isWsC).isEmpty then none
      else
        let r2 := r.dropWhile isWsC
        if (chars "Law").isPrefixOf r2 then some (r2.drop 3) else none
    else none) <|>
    (if (chars "P.L.").isPrefixOf cs then some (cs.drop 4) else none)
  match afterKw with
  | none => none
  | some r =>
    if (r.takeWhile isWsC).isEmpty then none
    else
      let r2 := r.dropWhile isWsC
      let cg := r2.takeWhile Char.isDigit
      if cg.isEmpty then none
      else
        let r3 := r2.dropWhile Char.isDigit
        let r4 := match r3 with
          | c :: t => if c = '-' || c = '–' || c = '—' then t else r3
          | [] => r3
        some ((cg, r4.takeWhile Char.isDigit), r4.dropWhile Char.isDigit)

/-- The optional tail `(?:\s+at\s+Large)?` of the Stat pattern.  If the
optional group matches but the continuation `\s+(\d+)` then fails, skipping
the group cannot succeed either (after the shared whitespace run the text
continues with `at`, not with a digit), so the all-or-nothing compilation
is exact. -/
def dropAtLarge (cs : List Char) : List Char :=
  if (cs.takeWhile isWsC).isEmpty then cs
  else
    let r := cs.dropWhile isWsC
    if (chars "at").isPrefixOf r then
      let r2 := r.drop 2
      if (r2.takeWhile isWsC).isEmpty then cs
      else
        let r3 := r2.dropWhile isWsC
        if (chars "Large").isPrefixOf r3 then r3.drop 5 else cs
    else cs

/-- Anchored match of `(\d+)\s+Stat\.?(?:utes)?(?:\s+at\s+Large)?\s+(\d+)`
(`stat_pattern`): groups (volume, page) and the rest. -/
def statMatchAt (cs : List Char) : Option ((List Char × List Char) × List Char) :=
  let vol := cs.takeWhile Char.isDigit
  if vol.isEmpty then none
  else
    let r1 := cs.dropWhile Char.isDigit
    if (r1.takeWhile isWsC).isEmpty then none
    else
      let r2 := r1.dropWhile isWsC
      if (chars "Stat").isPrefixOf r2 then
        let r5 := dropAtLarge (dropLit (chars "utes") (dropDot (r2.drop 4)))
        if (r5.takeWhile isWsC).isEmpty then none
        else
          let r6 := r5.dropWhile isWsC
          let pg := r6.takeWhile Char.isDigit
          if pg.isEmpty then none
          else some ((vol, pg), r6.dropWhile Char.isDigit)
      else none

/-- CPython `re.findall` scanning: try an anchored match at every position
from the left; on a match, emit its groups and resume right after it.
The fuel is the length of the text; every anchored matcher used here
consumes at least one character on success, so the fuel never runs out
before the scan reaches the end of the text. -/
def findallAux {α : Type} (m : List Char → Option (α × List Char)) :
    Nat → List Char → List α
  | 0, _ => []
  | fuel + 1, cs =>
    match m cs with
    | some (g, rest) => g :: findallAux m fuel rest
    | none =>
      match cs with
      | [] => []
      | _ :: t => findallAux m fuel t

def findall {α : Type} (m : List Char → Option (α × List Char)) (cs : List Char) :
    List α :=
  findallAux m cs.length cs

/-- One row of the citation dataset, mirroring the Python dicts built by the
`parse_*_citation` methods.  Keys that a given kind does not set are `none`
(the Python dicts simply omit them).  The Python key `section` is spelled
`section'` here because `section` is a Lean keyword. -/
structure CitationDict where
  citation_type : List Char
  full_citation : List Char
  sql_query : List Char
  title : Option (List Char) := none
  section' : Option (List Char) := none
  section_main : Option (List Char) := none
  part : Option (List Char) := none
  congress : Option (List Char) := none
  law_number : Option (List Char) := none
  volume : Option (List Char) := none
  page : Option (List Char) := none
deriving DecidableEq, Repr

def uscQuery (title section_main : List Char) : List Char :=
  chars "SELECT * FROM usc WHERE title = " ++ sqc ++ title ++ sqc ++
    chars " AND section = " ++ sqc ++ section_main ++ sqc

def cfrQuery (title part : List Char) : List Char :=
  chars "SELECT * FROM cfr WHERE title = " ++ sqc ++ title ++ sqc ++
    chars " AND part = " ++ sqc ++ part ++ sqc

def plQuery (congress law_number : List Char) : List Char :=
  chars "SELECT * FROM public_laws WHERE congress = " ++ sqc ++ congress ++ sqc ++
    chars " AND law_number = " ++ sqc ++ law_number ++ sqc

def statQuery (volume page : List Char) : List Char :=
  chars "SELECT * FROM statutes WHERE volume = " ++ sqc ++ volume ++ sqc ++
    chars " AND page = " ++ sqc ++ page ++ sqc

/-- Record built for one USC match: `section_main` is
`section.split('(')[0] if '(' in section else section`. -/
def mkUSC (g : List Char × List Char) : CitationDict :=
  let sm := if '(' ∈ g.2 then g.2.takeWhile (· ≠ '(') else g.2
  { citation_type := chars "USC"
    title := some g.1
    section' := some g.2
    section_main := some sm
    sql_query := uscQuery g.1 sm
    full_citation := g.1 ++ chars " U.S.C. " ++ g.2 }

/-- Record built for one CFR match: `part` is
`section.split('.')[0] if '.' in section else section`. -/
def mkCFR (g : List Char × List Char) : CitationDict :=
  let part := if '.' ∈ g.2 then g.2.takeWhile (· ≠ '.') else g.2
  { citation_type := chars "CFR"
    title := some g.1
    part := some part
    section' := some g.2
    sql_query := cfrQuery g.1 part
    full_citation := g.1 ++ chars " C.F.R. " ++ g.2 }

/-- Record built for one Public Law match; the law number may be empty, in
which case the full citation has no dash suffix. -/
def mkPL (g : List Char × List Char) : CitationDict :=
  { citation_type := chars "Public Law"
    congress := some g.1
    law_number := some g.2
    sql_query := plQuery g.1 g.2
    full_citation := chars "Public Law " ++ g.1 ++
      (if g.2.isEmpty then [] else '-' :: g.2) }

/-- Record built for one Statutes-at-Large match. -/
def mkStat (g : List Char × List Char) : CitationDict :=
  { citation_type := chars "Stat"
    volume := some g.1
    page := some g.2
    sql_query := statQuery g.1 g.2
    full_citation := g.1 ++ chars " Stat. " ++ g.2 }

def parse_usc_citation (text : List Char) : List CitationDict :=
  (findall uscMatchAt text).map mkUSC

def parse_cfr_citation (text : List Char) : List CitationDict :=
  (findall cfrMatchAt text).map mkCFR

def parse_statute_citation (text : List Char) : List CitationDict :=
  (findall plMatchAt text).map mkPL

def parse_stat_citation (text : List Char) : List CitationDict :=
  (findall statMatchAt text).map mkStat

/-- Python `CitationParser.parse_all_citations`: concatenate the four per-kind
result lists, USC first, then CFR, Public Law, and Stat. -/
def parse_all_citations (text : List Char) : List CitationDict :=
  parse_usc_citation text ++ parse_cfr_citation text ++
    parse_statute_citation text ++ parse_stat_citation text

/-!
## The context locator `extract_relevant_text`

The primary search pattern is built by `re.escape(citation)` followed by
replacing each escaped space (backslash plus space) with `\s+`:
every character of the citation is matched literally except that each
space character becomes `\s+` (CPython ≥ 3.7 escapes a space as `'\ '`,
and the replacement rewrites exactly those two-character units).
`flexMatchAt pat ts` is the anchored backtracking match of that pattern:
for a space it tries the longest whitespace run first and shortens it on
failure, exactly like the greedy `\s+` of the regex engine.
-/

/-- Greedy `\s+` with backtracking: try to consume `j` whitespace
characters for `j` from the full run length down to `1`, each time
continuing with `cont`, the anchored match of the rest of the pattern. -/
def tryRun (cont : List Char → Option Nat) (ts : List Char) : Nat → Option Nat
  | 0 => none
  | j + 1 =>
    match cont (ts.drop (j + 1)) with
    | some n => some (j + 1 + n)
    | none => tryRun cont ts j

def flexMatchAt : List Char → List Char → Option Nat
  | [], _ => some 0
  | p :: ps, ts =>
    if p = ' ' then
      tryRun (fun u => flexMatchAt ps u) ts ((ts.takeWhile isWsC).length)
    else
      match ts with
      | [] => none
      | t :: ts' => if p = t then (flexMatchAt ps ts').map (· + 1) else none

/-- Leftmost `re.search` of the flexible citation pattern: scan start offsets from
the left, return the span `[s, e)` of the first anchored match. -/
def flexSearchFrom (cit : List Char) : Nat → List Char → Option (Nat × Nat)
  | p, [] =>
    match flexMatchAt cit [] with
    | some n => some (p, p + n)
    | none => none
  | p, c :: t =>
    match flexMatchAt cit (c :: t) with
    | some n => some (p, p + n)
    | none => flexSearchFrom cit (p + 1) t

def flexSearch (cit text : List Char) : Option (Nat × Nat) :=
  flexSearchFrom cit 0 text

/-- Python `re.match` of `^\s*[A-Z]` against the context: greedy `\s*` takes the whole
leading whitespace run (a shorter run would leave a whitespace character
where `[A-Z]` must match), then an ASCII uppercase letter. -/
def startsWsUpper (cs : List Char) : Bool :=
  match cs.dropWhile isWsC with
  | c :: _ => c.isUpper
  | [] => false

/-- Does a match of `[.!?]\s+[A-Z]` start at the head of `cs`?  Greedy
`\s+` takes the maximal run; a shorter run would put a whitespace
character under `[A-Z]`, so maximal munch is exact. -/
def sentBreakHead (cs : List Char) : Bool :=
  match cs with
  | c :: rest =>
    (c = '.' || c = '!' || c = '?') &&
    (let k := (rest.takeWhile isWsC).length
     decide (0 < k) &&
     (match rest.drop k with
      | u :: _ => u.isUpper
      | [] => false))
  | [] => false

/-- Start positions of all matches found by `re.finditer` of the pattern
`[.!?]\s+[A-Z]` over `cs`.
The interior characters of any match are whitespace or an uppercase
letter, never `.`, `!` or `?`, so no later match can start inside an
earlier one and the non-overlapping `finditer` scan finds exactly the
positions whose suffix matches the pattern. -/
def sentBreaksAux : List Char → Nat → List Nat
  | [], _ => []
  | c :: t, p =>
    if sentBreakHead (c :: t) then p :: sentBreaksAux t (p + 1)
    else sentBreaksAux t (p + 1)

def sentBreaks (cs : List Char) : List Nat :=
  sentBreaksAux cs 0

/-- The shared excerpt construction of `extract_relevant_text`, applied
after a search hit at span `[s, e)` (the identical block appears twice in
the source, once for the primary pattern and once for the fallback):
window clamping, then the sentence-boundary refinement.  `start - 200 +
last_break` is computed in `Int` because Python computes it with signed
integers and clamps with `max(0, ·)`. -/
def windowExcerpt (html : List Char) (s e window : Nat) : List Char :=
  let start := s - window
  let stop := min html.length (e + window)
  let context := pySlice start stop html
  if start > 0 && !startsWsUpper context then
    let prev := pySlice (start - 200) start html
    match (sentBreaks prev).getLast? with
    | some b =>
      let lastBreak := b + 2
      let newStart := ((start : Int) - 200 + lastBreak).toNat
      pySlice newStart stop html
    | none => context
  else context

/-- Interpretation of a field string spliced verbatim into the fallback
pattern `f"{title}\\s+[UCS].+?{section}"`.  For the field grammar the
upstream code can produce (digits, lowercase letters, dots from CFR
sections, balanced `([a-z0-9]+)` subsections from USC sections) the
spliced text is the regex in which `.` matches any character except a
newline, `(` and `)` are group markers matching nothing, and every other
character is literal.  Returns the number of text characters consumed. -/
def interpMatch : List Char → List Char → Option Nat
  | [], _ => some 0
  | p :: ps, ts =>
    if p = '(' || p = ')' then interpMatch ps ts
    else
      match ts with
      | [] => none
      | c :: ts' =>
        if p = '.' then
          if c = '\n' then none else (interpMatch ps ts').map (· + 1)
        else if p = c then (interpMatch ps ts').map (· + 1)
        else none

/-- Lazy `.+?` followed by the spliced section: try the shortest dot-run
first, lengthening one (non-newline) character at a time. -/
def lazyDotThen (sec : List Char) : List Char → Option Nat
  | [] => none
  | c :: ts =>
    if c = '\n' then none
    else
      match interpMatch sec ts with
      | some m => some (1 + m)
      | none => (lazyDotThen sec ts).map (· + 1)

/-- Anchored match of the fallback pattern `f"{title}\s+[UCS].+?{section}"`
built at line 140 of the source.  The greedy `\s+` is followed by the
class `[UCS]`, which contains no whitespace, so maximal munch is exact. -/
def fallbackMatchAt (title sec : List Char) (ts : List Char) : Option Nat :=
  match interpMatch title ts with
  | none => none
  | some n1 =>
    let ts1 := ts.drop n1
    let k := (ts1.takeWhile isWsC).length
    if k = 0 then none
    else
      match ts1.drop k with
      | u :: ts2 =>
        if u = 'U' || u = 'C' || u = 'S' then
          (lazyDotThen sec ts2).map (n1 + k + 1 + ·)
        else none
      | [] => none

def fallbackSearchFrom (title sec : List Char) : Nat → List Char → Option (Nat × Nat)
  | p, [] =>
    match fallbackMatchAt title sec [] with
    | some n => some (p, p + n)
    | none => none
  | p, c :: t =>
    match fallbackMatchAt title sec (c :: t) with
    | some n => some (p, p + n)
    | none => fallbackSearchFrom title sec (p + 1) t

def fallbackSearch (title sec text : List Char) : Option (Nat × Nat) :=
  fallbackSearchFrom title sec 0 text

/-- The keys of the `citation_match` dict that `extract_relevant_text`
reads: `citation_match["full_citation"]`,
`citation_match.get("title", "")`, `"section" in citation_match` and
`citation_match["section"]`.  A missing key is `none`.  The Python key
`section` is spelled `section'`. -/
structure CitationMatch where
  full_citation : Option (List Char) := none
  title : Option (List Char) := none
  section' : Option (List Char) := none
deriving DecidableEq, Repr

/-- Result of a call to the Python function: `ok excerpt` for a normal
return, `raised` when an exception escapes the function. -/
inductive PyResult where
  | ok (excerpt : List Char)
  | raised
deriving DecidableEq, Repr

/-- Model of `extract_relevant_text(html_content, citation_match, window_size)`.

The body runs inside `try/except Exception`, whose handler returns
`citation + " [Error extracting context: ...]"`.  When the dict has no
`"full_citation"` key, the lookup on the first line of the `try` block
raises `KeyError` before the local variable `citation` is bound; the
handler then evaluates the unbound local `citation` and the resulting
`UnboundLocalError` escapes the function — modelled by `raised`.  Once
`citation` is bound to a string the rest of the body is modelled by total
functions and the function returns normally. -/
def extract_relevant_text (html : List Char) (cm : CitationMatch)
    (window : Nat := 500) : PyResult :=
  match cm.full_citation with
  | none => .raised
  | some citation =>
    match flexSearch citation html with
    | some (s, e) => .ok (windowExcerpt html s e window)
    | none =>
      let title := cm.title.getD []
      match cm.section' with
      | some sec =>
        match fallbackSearch title sec html with
        | some (s, e) => .ok (windowExcerpt html s e window)
        | none => .ok (citation ++ chars " [Context not found]")
      | none => .ok (citation ++ chars " [Context not found]")

/-!
## Helper notions used by the claim theorems
-/

/-- The kind-specific fields of a citation record (every key other than
`citation_type`, `full_citation` and `sql_query`). -/
def kindFields (r : CitationDict) :
    Option (List Char) × Option (List Char) × Option (List Char) × Option (List Char) ×
    Option (List Char) × Option (List Char) × Option (List Char) × Option (List Char) :=
  (r.title, r.section', r.section_main, r.part, r.congress, r.law_number, r.volume, r.page)

/-- Every record produced by the extractor carries the lookup-query string
computed from its own fields by the query builder of its kind. -/
lemma sql_query_of_mem {t : List Char} {r : CitationDict}
    (h : r ∈ parse_all_citations t) :
    r.sql_query =
      (if r.citation_type = chars "USC" then
        uscQuery (r.title.getD []) (r.section_main.getD [])
      else if r.citation_type = chars "CFR" then
        cfrQuery (r.title.getD []) (r.part.getD [])
      else if r.citation_type = chars "Public Law" then
        plQuery (r.congress.getD []) (r.law_number.getD [])
      else
        statQuery (r.volume.getD []) (r.page.getD [])) := by
  simp only [parse_all_citations, List.mem_append, parse_usc_citation,
    parse_cfr_citation, parse_statute_citation, parse_stat_citation] at h
  rcases h with ((h | h) | h) | h
  · obtain ⟨g, -, rfl⟩ := List.mem_map.mp h
    rw [show (mkUSC g).citation_type = chars "USC" from rfl, if_pos rfl]
    rfl
  · obtain ⟨g, -, rfl⟩ := List.mem_map.mp h
    rw [show (mkCFR g).citation_type = chars "CFR" from rfl,
      if_neg (by decide : ¬ chars "CFR" = chars "USC"), if_pos rfl]
    rfl
  · obtain ⟨g, -, rfl⟩ := List.mem_map.mp h
    rw [show (mkPL g).citation_type = chars "Public Law" from rfl,
      if_neg (by decide : ¬ chars "Public Law" = chars "USC"),
      if_neg (by decide : ¬ chars "Public Law" = chars "CFR"), if_pos rfl]
    rfl
  · obtain ⟨g, -, rfl⟩ := List.mem_map.mp h
    rw [show (mkStat g).citation_type = chars "Stat" from rfl,
      if_neg (by decide : ¬ chars "Stat" = chars "USC"),
      if_neg (by decide : ¬ chars "Stat" = chars "CFR"),
      if_neg (by decide : ¬ chars "Stat" = chars "Public Law")]
    rfl

/-!
## Claims about the citation extractor
-/

/-- C8: `extract` applied to the empty string returns an empty sequence.
(The second half of the claim, that `parse_all_citations` returns normally
on every string input, is expressed by its very type in this development:
it is a total function `List Char → List CitationDict`.) -/
theorem C8_extract_empty : parse_all_citations (chars "") = [] := rfl

/-- C10: the sequence returned by `parse_all_citations` is the
concatenation of the USC, CFR, Public Law and Stat groups in that fixed
order, and each group contains only records of its own kind, so records
of different kinds are never interleaved even when their occurrences in
the text are. -/
theorem C10_kind_grouping (t : List Char) :
    parse_all_citations t =
      parse_usc_citation t ++ parse_cfr_citation t ++
        parse_statute_citation t ++ parse_stat_citation t ∧
    (∀ r ∈ parse_usc_citation t, r.citation_type = chars "USC") ∧
    (∀ r ∈ parse_cfr_citation t, r.citation_type = chars "CFR") ∧
    (∀ r ∈ parse_statute_citation t, r.citation_type = chars "Public Law") ∧
    (∀ r ∈ parse_stat_citation t, r.citation_type = chars "Stat") := by
  refine ⟨rfl, ?_, ?_, ?_, ?_⟩
  · intro r hr
    obtain ⟨g, -, rfl⟩ := List.mem_map.mp hr
    rfl
  · intro r hr
    obtain ⟨g, -, rfl⟩ := List.mem_map.mp hr
    rfl
  · intro r hr
    obtain ⟨g, -, rfl⟩ := List.mem_map.mp hr
    rfl
  · intro r hr
    obtain ⟨g, -, rfl⟩ := List.mem_map.mp hr
    rfl

/-- Witness for C10 at a concrete text containing interleaved kinds. -/
theorem C10_kind_grouping_witness :
    parse_all_citations (chars "124 Stat. 119 then 17 U.S.C. 501") =
      parse_usc_citation (chars "124 Stat. 119 then 17 U.S.C. 501") ++
        parse_cfr_citation (chars "124 Stat. 119 then 17 U.S.C. 501") ++
        parse_statute_citation (chars "124 Stat. 119 then 17 U.S.C. 501") ++
        parse_stat_citation (chars "124 Stat. 119 then 17 U.S.C. 501") :=
  (C10_kind_grouping (chars "124 Stat. 119 then 17 U.S.C. 501")).1

/-- C9: for records of the same kind produced by the extractor, equal
kind-specific fields imply equal generated lookup-query strings: the
`sql_query` string is a pure function of the record's fields. -/
theorem C9_sql_query_pure {t1 t2 : List Char} {r1 r2 : CitationDict}
    (h1 : r1 ∈ parse_all_citations t1) (h2 : r2 ∈ parse_all_citations t2)
    (hty : r1.citation_type = r2.citation_type)
    (hf : kindFields r1 = kindFields r2) :
    r1.sql_query = r2.sql_query := by
  have e1 := sql_query_of_mem h1
  have e2 := sql_query_of_mem h2
  simp only [kindFields, Prod.mk.injEq] at hf
  obtain ⟨ht, hs, hsm, hp, hcg, hln, hv, hpg⟩ := hf
  rw [e1, e2, hty, ht, hsm, hp, hcg, hln, hv, hpg]

/-- Witness for C9: the same USC record extracted from two different
texts, with equal fields and hence equal query strings. -/
theorem C9_sql_query_pure_witness :
    (mkUSC (chars "17", chars "501")).sql_query =
      (mkUSC (chars "17", chars "501")).sql_query :=
  @C9_sql_query_pure (chars "17 U.S.C. 501") (chars "see 17 USC 501 here")
    (mkUSC (chars "17", chars "501")) (mkUSC (chars "17", chars "501"))
    (by decide) (by decide) rfl rfl

/-- C4 counterexample: the USC pattern does not accept the listed variant
`"17 U.S. Code 501"` — after `U\.?S\.?` the pattern requires the letter
`C` immediately (optionally followed by `ode`), so the space inside
`"U.S. Code"` makes the match fail and no USC record is produced. -/
theorem C4_variants_cex :
    ¬ ∃ r ∈ parse_all_citations (chars "17 U.S. Code 501"),
        r.citation_type = chars "USC" ∧ r.title = some (chars "17") ∧
        r.section' = some (chars "501") := by
  decide

/-- C4 amended: of the five listed variant spellings the pattern accepts
`"17 USC 501"`, `"17 U.S.C. 501"`, `"17 U.S.C. section 501"` and
`"17 U.S.C. sec. 501"`, each yielding a USC record with title `17` and
section `501`; the variant `"17 U.S. Code 501"` (with a space before
`Code`) is rejected, while the spaceless `"17 U.S.Code 501"` is
accepted. -/
theorem C4_variants_amended :
    parse_usc_citation (chars "17 USC 501") = [mkUSC (chars "17", chars "501")] ∧
    parse_usc_citation (chars "17 U.S.C. 501") = [mkUSC (chars "17", chars "501")] ∧
    parse_usc_citation (chars "17 U.S.C. section 501") = [mkUSC (chars "17", chars "501")] ∧
    parse_usc_citation (chars "17 U.S.C. sec. 501") = [mkUSC (chars "17", chars "501")] ∧
    parse_all_citations (chars "17 U.S. Code 501") = [] ∧
    parse_usc_citation (chars "17 U.S.Code 501") = [mkUSC (chars "17", chars "501")] := by
  refine ⟨rfl, rfl, rfl, rfl, rfl, rfl⟩

/-!
## Claims about the context locator
-/

/-- C1 counterexample: `extract_relevant_text` can propagate an exception.
For a citation record without a `"full_citation"` key the `KeyError`
raised on the first line of the `try` block reaches the handler before
the local `citation` is bound, and the handler's own reference to
`citation` raises `UnboundLocalError` out of the function (checked
against CPython). -/
theorem C1_never_raises_cex :
    extract_relevant_text (chars "some legal text") { full_citation := none } 500 =
      .raised := rfl

/-- C1 amended: for every text and every citation record that does carry
a (string) full-citation value, `extract_relevant_text` returns normally;
every exception arising during matching is caught by the handler.  Only
a record whose `"full_citation"` key is missing makes the handler itself
fail as in the counterexample. -/
theorem C1_never_raises_amended (html : List Char) (cm : CitationMatch)
    (c : List Char) (w : Nat) (hc : cm.full_citation = some c) :
    extract_relevant_text html cm w ≠ .raised := by
  unfold extract_relevant_text
  rw [hc]
  rcases hse : flexSearch c html with - | ⟨s, e⟩
  · rcases hsec : cm.section' with - | sec
    · simp [hse, hsec]
    · rcases hfb : fallbackSearch (cm.title.getD []) sec html with - | ⟨s, e⟩ <;>
        simp [hse, hsec, hfb]
  · simp [hse]

theorem C1_never_raises_witness :
    extract_relevant_text (chars "some legal text")
      { full_citation := some (chars "17 U.S.C. 501") } 500 ≠ .raised :=
  C1_never_raises_amended (chars "some legal text")
    { full_citation := some (chars "17 U.S.C. 501") } (chars "17 U.S.C. 501") 500 rfl

/-- C5: when the whitespace-flexible full-citation pattern does not match
the text and (if the record exposes a section, so that the fallback is
attempted at all) the looser `title\s+[UCS].+?section` fallback pattern
does not match either, the locator returns the full-citation string
followed by `" [Context not found]"` — the `found = false` outcome of the
spec. -/
theorem C5_context_not_found (html : List Char) (cm : CitationMatch)
    (c : List Char) (hc : cm.full_citation = some c)
    (hflex : flexSearch c html = none)
    (hfb : ∀ sec, cm.section' = some sec →
      fallbackSearch (cm.title.getD []) sec html = none) :
    extract_relevant_text html cm 500 = .ok (c ++ chars " [Context not found]") := by
  unfold extract_relevant_text
  rw [hc]
  rcases hsec : cm.section' with - | sec
  · simp [hflex, hsec]
  · simp [hflex, hsec, hfb sec hsec]

theorem C5_context_not_found_witness :
    extract_relevant_text (chars "nothing relevant in here")
      { full_citation := some (chars "17 U.S.C. 501"), title := some (chars "17"),
        section' := some (chars "501") } 500 =
      .ok (chars "17 U.S.C. 501" ++ chars " [Context not found]") :=
  C5_context_not_found (chars "nothing relevant in here")
    { full_citation := some (chars "17 U.S.C. 501"), title := some (chars "17"),
      section' := some (chars "501") } (chars "17 U.S.C. 501") rfl (by decide)
    (by intro sec hs; cases hs; decide)

/-!
## The excerpt window and the sentence-boundary refinement
-/

lemma pySlice_length (lo hi : Nat) (l : List Char) :
    (pySlice lo hi l).length = min hi l.length - lo := by
  simp [pySlice]

/-- The start offset of the excerpt finally returned by `windowExcerpt`:
the clamped window start, moved back when the sentence-boundary
refinement fires. -/
def excerptStart (html : List Char) (start stop : Nat) : Nat :=
  if start > 0 && !startsWsUpper (pySlice start stop html) then
    match (sentBreaks (pySlice (start - 200) start html)).getLast? with
    | some b => ((start : Int) - 200 + (b + 2)).toNat
    | none => start
  else start

lemma windowExcerpt_eq (html : List Char) (s e window : Nat) :
    windowExcerpt html s e window =
      pySlice (excerptStart html (s - window) (min html.length (e + window)))
        (min html.length (e + window)) html := by
  unfold windowExcerpt excerptStart
  dsimp only
  split
  · split <;> rfl
  · rfl

/-- A sentence-break match needs a punctuation mark, at least one
whitespace character and an uppercase letter. -/
lemma sentBreakHead_three {cs : List Char} (h : sentBreakHead cs = true) :
    3 ≤ cs.length := by
  unfold sentBreakHead at h
  rcases cs with - | ⟨c, rest⟩
  · simp at h
  · simp only [Bool.and_eq_true, decide_eq_true_eq] at h
    obtain ⟨-, hk, hu⟩ := h
    rcases hd : rest.drop ((rest.takeWhile isWsC).length) with - | ⟨u, us⟩
    · rw [hd] at hu
      simp at hu
    · have hlt : (rest.takeWhile isWsC).length < rest.length := by
        by_contra hge
        rw [List.drop_of_length_le (by omega)] at hd
        exact List.noConfusion hd
      simp only [List.length_cons]
      omega

lemma sentBreaksAux_mem_bound {cs : List Char} {p b : Nat}
    (h : b ∈ sentBreaksAux cs p) : p ≤ b ∧ b - p + 3 ≤ cs.length := by
  induction cs generalizing p with
  | nil => simp [sentBreaksAux] at h
  | cons c t ih =>
    unfold sentBreaksAux at h
    by_cases hb : sentBreakHead (c :: t) = true
    · rw [if_pos hb] at h
      rcases List.mem_cons.mp h with rfl | h
      · have := sentBreakHead_three hb
        omega
      · have := ih h
        simp only [List.length_cons]
        omega
    · rw [if_neg hb] at h
      have := ih h
      simp only [List.length_cons]
      omega

/-- The refinement never moves the excerpt start forward. -/
lemma excerptStart_le (html : List Char) (start stop : Nat) :
    excerptStart html start stop ≤ start := by
  unfold excerptStart
  split
  · rcases hgl : (sentBreaks (pySlice (start - 200) start html)).getLast? with - | b
    · simp
    · simp only [hgl]
      obtain ⟨ys, hys⟩ := List.getLast?_eq_some_iff.mp hgl
      have hmem : b ∈ sentBreaks (pySlice (start - 200) start html) := by
        rw [hys]; simp
      have hb := (sentBreaksAux_mem_bound hmem).2
      have hlen := pySlice_length (start - 200) start html
      have : b + 3 ≤ min start html.length - (start - 200) := by omega
      omega
  · exact le_refl _

/-- When the refinement fires with last boundary `b`, the excerpt start is
exactly `max(0, start - 200 + (b + 2))`, computed with signed arithmetic
as in the source. -/
lemma excerptStart_refine (html : List Char) (start stop b : Nat)
    (hpos : 0 < start)
    (hlow : startsWsUpper (pySlice start stop html) = false)
    (hbrk : (sentBreaks (pySlice (start - 200) start html)).getLast? = some b) :
    excerptStart html start stop = ((start : Int) - 200 + (b + 2)).toNat := by
  unfold excerptStart
  rw [if_pos (by simp [hpos, hlow]), hbrk]

/-- C6: when the whitespace-flexible full-citation pattern matches the
text at span `[s, e)`, the locator computes `start = max(0, s - window)`
(Nat subtraction realises the clamp) and `stop = min(len(text), e +
window)` and returns the excerpt `text[start':stop]`, where `start' =
excerptStart ≤ start` accounts for the sentence-boundary refinement the
claim itself sets aside; in particular the excerpt begins at or before
the citation occurrence (`start' ≤ start ≤ s`) and extends `window`
characters past it or to the end of the text. -/
theorem C6_window_clamp (html : List Char) (cm : CitationMatch) (c : List Char)
    (w s e : Nat) (hc : cm.full_citation = some c)
    (hse : flexSearch c html = some (s, e)) :
    extract_relevant_text html cm w =
      .ok (pySlice (excerptStart html (s - w) (min html.length (e + w)))
        (min html.length (e + w)) html) ∧
    excerptStart html (s - w) (min html.length (e + w)) ≤ s - w ∧
    s - w ≤ s := by
  refine ⟨?_, excerptStart_le _ _ _, Nat.sub_le _ _⟩
  unfold extract_relevant_text
  rw [hc]
  dsimp only
  rw [hse]
  dsimp only
  rw [windowExcerpt_eq]

theorem C6_window_clamp_witness :
    extract_relevant_text (chars "A 1 U.S.C. 2 b")
      { full_citation := some (chars "1 U.S.C. 2") } 500 =
      .ok (pySlice
        (excerptStart (chars "A 1 U.S.C. 2 b") (2 - 500)
          (min (chars "A 1 U.S.C. 2 b").length (12 + 500)))
        (min (chars "A 1 U.S.C. 2 b").length (12 + 500)) (chars "A 1 U.S.C. 2 b")) ∧
    excerptStart (chars "A 1 U.S.C. 2 b") (2 - 500)
      (min (chars "A 1 U.S.C. 2 b").length (12 + 500)) ≤ 2 - 500 ∧
    2 - 500 ≤ 2 :=
  C6_window_clamp (chars "A 1 U.S.C. 2 b")
    { full_citation := some (chars "1 U.S.C. 2") } (chars "1 U.S.C. 2") 500 2 12
    rfl (by decide)

/-- A concrete text on which the sentence-boundary refinement fires with
the window start closer than 200 characters to the beginning of the
text: the citation occurs at position 54, the window start is 44, the
scanned region is `text[0:44]` and its only sentence break `". C"`
starts at position 2. -/
def refinementSample : List Char :=
  chars "Ab. Cd efgh ijkl mnop qrst uvwx yzab cdef ghij klmn o 1 U.S.C. 2 tail text here and more"

/-- C7 counterexample: the refinement does not move the start to just
after the found boundary.  The code computes `new_start = max(0,
start - 200 + last_break)`; here `start = 44 < 200`, so this clamps to
`0` although the position just after the boundary is `4`, and the
returned excerpt is `text[0:74]`, not the `text[4:74]` the claim
prescribes (behaviour checked against CPython). -/
theorem C7_refinement_cex :
    flexSearch (chars "1 U.S.C. 2") refinementSample = some (54, 64) ∧
    (0 : Nat) < 54 - 10 ∧
    startsWsUpper (pySlice (54 - 10) (min refinementSample.length (64 + 10))
      refinementSample) = false ∧
    (sentBreaks (pySlice (54 - 10 - 200) (54 - 10) refinementSample)).getLast? =
      some 2 ∧
    extract_relevant_text refinementSample
      { full_citation := some (chars "1 U.S.C. 2") } 10 =
      .ok (pySlice 0 74 refinementSample) ∧
    pySlice 0 74 refinementSample ≠ pySlice (2 + 2) 74 refinementSample := by
  decide

/-- C7 amended: when the primary pattern matches at `[s, e)`,
`start = s - window > 0`, the excerpt does not begin with an uppercase
letter after optional whitespace, and the scan of
`text[max(0, start - 200):start]` finds its last sentence boundary at
offset `b`, the excerpt is recomputed as `text[new_start:stop]` with the
end unchanged and `new_start = max(0, start - 200 + (b + 2)) ≤ start`:
the offset `b + 2` is rebased at `start - 200` even when the scanned
region begins at position `0`.  When `start ≥ 200` this is the position
just after the boundary; when `start < 200` it falls `200 - start`
characters short of that position, bottoming out at `0` (which the
counterexample reaches). -/
theorem C7_refinement_amended (html : List Char) (cm : CitationMatch)
    (c : List Char) (w s e b : Nat) (hc : cm.full_citation = some c)
    (hse : flexSearch c html = some (s, e))
    (hpos : 0 < s - w)
    (hlow : startsWsUpper (pySlice (s - w) (min html.length (e + w)) html) = false)
    (hbrk : (sentBreaks (pySlice (s - w - 200) (s - w) html)).getLast? = some b) :
    extract_relevant_text html cm w =
      .ok (pySlice (((s - w : Nat) : Int) - 200 + (b + 2)).toNat
        (min html.length (e + w)) html) ∧
    (((s - w : Nat) : Int) - 200 + (b + 2)).toNat ≤ s - w ∧
    (200 ≤ s - w →
      (((s - w : Nat) : Int) - 200 + (b + 2)).toNat = s - w - 200 + (b + 2)) ∧
    (s - w < 200 →
      (((s - w : Nat) : Int) - 200 + (b + 2)).toNat = (b + 2) - (200 - (s - w))) := by
  have hre := excerptStart_refine html (s - w) (min html.length (e + w)) b hpos hlow hbrk
  refine ⟨?_, ?_, ?_, ?_⟩
  · unfold extract_relevant_text
    rw [hc]
    dsimp only
    rw [hse]
    dsimp only
    rw [windowExcerpt_eq, hre]
  · rw [← hre]
    exact excerptStart_le _ _ _
  · intro h200
    omega
  · intro h200
    omega

theorem C7_refinement_amended_witness :
    extract_relevant_text refinementSample
      { full_citation := some (chars "1 U.S.C. 2") } 10 =
      .ok (pySlice (((54 - 10 : Nat) : Int) - 200 + (2 + 2)).toNat
        (min refinementSample.length (64 + 10)) refinementSample) ∧
    (((54 - 10 : Nat) : Int) - 200 + (2 + 2)).toNat ≤ 54 - 10 ∧
    (200 ≤ 54 - 10 →
      (((54 - 10 : Nat) : Int) - 200 + (2 + 2)).toNat = 54 - 10 - 200 + (2 + 2)) ∧
    (54 - 10 < 200 →
      (((54 - 10 : Nat) : Int) - 200 + (2 + 2)).toNat = (2 + 2) - (200 - (54 - 10))) :=
  C7_refinement_amended refinementSample
    { full_citation := some (chars "1 U.S.C. 2") } (chars "1 U.S.C. 2") 10 54 64 2
    rfl (by decide) (by decide) (by decide) (by decide)

/-!
## Leftmost scanning lemmas for `findall`
-/

lemma findall_cons_none {α : Type} (m : List Char → Option (α × List Char))
    (c : Char) (cs : List Char) (h : m (c :: cs) = none) :
    findall m (c :: cs) = findall m cs := by
  have h0 : findall m (c :: cs) =
      (match m (c :: cs) with
       | some (g, rest) => g :: findallAux m cs.length rest
       | none => findallAux m cs.length cs) := rfl
  rw [h0, h]
  rfl

lemma findall_cons_some {α : Type} (m : List Char → Option (α × List Char))
    {c : Char} {cs : List Char} {g : α} {rest : List Char}
    (h : m (c :: cs) = some (g, rest)) :
    findall m (c :: cs) = g :: findallAux m cs.length rest := by
  have h0 : findall m (c :: cs) =
      (match m (c :: cs) with
       | some (g2, rest2) => g2 :: findallAux m cs.length rest2
       | none => findallAux m cs.length cs) := rfl
  rw [h0, h]

/-- A USC match must begin with a digit. -/
lemma uscMatchAt_cons_none {c : Char} (cs : List Char) (h : c.isDigit = false) :
    uscMatchAt (c :: cs) = none := by
  simp [uscMatchAt, List.takeWhile_cons, h]

/-- Scanning skips over a digit-free prefix: no USC match can start
inside it. -/
lemma findall_usc_skip (a s : List Char) (ha : ∀ c ∈ a, c.isDigit = false) :
    findall uscMatchAt (a ++ s) = findall uscMatchAt s := by
  induction a with
  | nil => rfl
  | cons c t ih =>
    rw [List.cons_append,
      findall_cons_none uscMatchAt c (t ++ s)
        (uscMatchAt_cons_none (t ++ s) (ha c (List.mem_cons_self c t))),
      ih (fun x hx => ha x (List.mem_cons_of_mem c hx))]

/-- The anchored USC match at an occurrence of `"17 U.S.C. 501"` whose
continuation does not begin with a digit, a lowercase letter or `(`
consumes exactly the occurrence and captures title `17`, section `501`. -/
lemma uscMatchAt_occ (b : List Char)
    (hb : b = [] ∨ ∃ c t, b = c :: t ∧ c.isDigit = false ∧ c.isLower = false ∧ c ≠ '(') :
    uscMatchAt (chars "17 U.S.C. 501" ++ b) = some ((chars "17", chars "501"), b) := by
  rcases hb with rfl | ⟨c, t, rfl, h1, h2, h3⟩
  · decide
  · simp only [show chars "17 U.S.C. 501" ++ c :: t =
      '1' :: '7' :: ' ' :: 'U' :: '.' :: 'S' :: '.' :: 'C' :: '.' :: ' ' :: '5' :: '0' :: '1' :: c :: t from rfl]
    simp [uscMatchAt, sepSection, sepWsOptSign, sepLit, uscSection, parenGroups, dropDot,
      dropLit, List.takeWhile_cons, List.dropWhile_cons, h1, h2, eq_false h3, chars,
      show Char.isDigit '1' = true from rfl, show Char.isDigit '7' = true from rfl,
      show Char.isDigit '5' = true from rfl, show Char.isDigit '0' = true from rfl,
      show Char.isDigit ' ' = false from rfl, show Char.isDigit 'U' = false from rfl,
      show isWsC ' ' = true from rfl, show isWsC 'U' = false from rfl,
      show isWsC '5' = false from rfl, show Char.isLower '5' = false from rfl]

/-- C3 counterexample: `"117 U.S.C. 501"` contains the substring
`"17 U.S.C. 501"`, but extraction returns only a record with title
`117` (the greedy leftmost `\d+` captures all three digits), so no
record with title `17` and section `501` is produced (checked against
CPython, which returns the single pair `("117", "501")`). -/
theorem C3_usc_cex :
    (∃ a b, chars "117 U.S.C. 501" = a ++ chars "17 U.S.C. 501" ++ b) ∧
    ¬ ∃ r ∈ parse_all_citations (chars "117 U.S.C. 501"),
        r.citation_type = chars "USC" ∧ r.title = some (chars "17") ∧
        r.section' = some (chars "501") := by
  refine ⟨⟨chars "1", [], by decide⟩, by decide⟩

/-- C3 amended: if the text contains `"17 U.S.C. 501"` with no digit
anywhere before the occurrence and with a continuation that does not
start with a digit, a lowercase letter or `(` (so that the greedy title
and section groups capture exactly `17` and `501`), then extraction
returns a USC record with title `17` and section `501` — namely the
record `mkUSC ("17", "501")`. -/
theorem C3_usc_amended (a b : List Char)
    (ha : ∀ c ∈ a, c.isDigit = false)
    (hb : b = [] ∨ ∃ c t, b = c :: t ∧ c.isDigit = false ∧ c.isLower = false ∧ c ≠ '(') :
    mkUSC (chars "17", chars "501") ∈
      parse_all_citations (a ++ chars "17 U.S.C. 501" ++ b) := by
  have hocc := uscMatchAt_occ b hb
  have hmem : mkUSC (chars "17", chars "501") ∈
      parse_usc_citation (a ++ chars "17 U.S.C. 501" ++ b) := by
    unfold parse_usc_citation
    rw [List.append_assoc, findall_usc_skip a _ ha]
    rcases hcons : chars "17 U.S.C. 501" ++ b with - | ⟨c, t⟩
    · exact absurd (List.append_eq_nil.mp hcons).1 (by decide)
    · rw [hcons] at hocc
      rw [findall_cons_some uscMatchAt hocc]
      exact List.mem_map_of_mem mkUSC (List.mem_cons_self _ _)
  unfold parse_all_citations
  exact List.mem_append.mpr (Or.inl (List.mem_append.mpr (Or.inl
    (List.mem_append.mpr (Or.inl hmem)))))

theorem C3_usc_amended_witness :
    mkUSC (chars "17", chars "501") ∈
      parse_all_citations (chars "See " ++ chars "17 U.S.C. 501" ++ chars ", ok") :=
  C3_usc_amended (chars "See ") (chars ", ok") (by decide)
    (Or.inr ⟨',', chars " ok", rfl, rfl, rfl, by decide⟩)

/-!
## Properties of the flexible whitespace matcher
-/

lemma tryRun_succ (cont : List Char → Option Nat) (ts : List Char) (j : Nat) :
    tryRun cont ts (j + 1) =
      (match cont (ts.drop (j + 1)) with
       | some n => some (j + 1 + n)
       | none => tryRun cont ts j) := rfl

lemma flexMatchAt_cons (p : Char) (ps ts : List Char) :
    flexMatchAt (p :: ps) ts =
      (if p = ' ' then
        tryRun (fun u => flexMatchAt ps u) ts ((ts.takeWhile isWsC).length)
      else
        match ts with
        | [] => none
        | t :: ts' => if p = t then (flexMatchAt ps ts').map (· + 1) else none) := rfl

lemma flexSearchFrom_nil (cit : List Char) (p : Nat) :
    flexSearchFrom cit p [] =
      (match flexMatchAt cit [] with
       | some n => some (p, p + n)
       | none => none) := rfl

lemma flexSearchFrom_cons (cit : List Char) (p : Nat) (c : Char) (t : List Char) :
    flexSearchFrom cit p (c :: t) =
      (match flexMatchAt cit (c :: t) with
       | some n => some (p, p + n)
       | none => flexSearchFrom cit (p + 1) t) := rfl

lemma flexMatchAt_cons_cons (p : Char) (ps : List Char) (t : Char) (ts' : List Char)
    (hp : p ≠ ' ') :
    flexMatchAt (p :: ps) (t :: ts') =
      if p = t then (flexMatchAt ps ts').map (· + 1) else none := by
  rw [flexMatchAt_cons, if_neg hp]

/-- A successful whitespace trial consumed some `j ∈ [1, k]` characters
and matched the rest of the pattern after them. -/
lemma tryRun_sound {cont : List Char → Option Nat} {ts : List Char} {k n : Nat}
    (h : tryRun cont ts k = some n) :
    ∃ j, 1 ≤ j ∧ j ≤ k ∧ j ≤ n ∧ cont (ts.drop j) = some (n - j) := by
  induction k with
  | zero => exact absurd h (by simp [tryRun])
  | succ k ih =>
    rw [tryRun_succ] at h
    rcases hc : cont (ts.drop (k + 1)) with - | m
    · rw [hc] at h
      obtain ⟨j, h1, h2, h3, h4⟩ := ih h
      exact ⟨j, h1, by omega, h3, h4⟩
    · rw [hc] at h
      have hn : n = k + 1 + m := (Option.some.inj h).symm
      refine ⟨k + 1, by omega, le_refl _, by omega, ?_⟩
      rw [hc, hn]
      congr 1
      omega

/-- If some admissible whitespace consumption lets the rest of the
pattern match, the trial succeeds. -/
lemma tryRun_isSome (cont : List Char → Option Nat) (ts : List Char) (j k : Nat)
    (h1 : 1 ≤ j) (h2 : j ≤ k) (h : (cont (ts.drop j)).isSome = true) :
    (tryRun cont ts k).isSome = true := by
  induction k with
  | zero => omega
  | succ k ih =>
    rw [tryRun_succ]
    rcases hc : cont (ts.drop (k + 1)) with - | m
    · have hj : j ≤ k := by
        rcases Nat.lt_or_ge j (k + 1) with h' | h'
        · omega
        · exfalso
          have hj1 : j = k + 1 := by omega
          rw [hj1, hc] at h
          simp at h
      exact ih hj
    · simp

/-- A match never consumes more characters than the text has. -/
lemma flexMatchAt_le {pat : List Char} : ∀ {ts : List Char} {n : Nat},
    flexMatchAt pat ts = some n → n ≤ ts.length := by
  induction pat with
  | nil =>
    intro ts n h
    have : (0 : Nat) = n := Option.some.inj h
    omega
  | cons p ps ih =>
    intro ts n h
    rw [flexMatchAt_cons] at h
    by_cases hp : p = ' '
    · rw [if_pos hp] at h
      obtain ⟨j, hj1, hj2, hj3, hj4⟩ := tryRun_sound h
      have hrec := ih hj4
      have hk : (ts.takeWhile isWsC).length ≤ ts.length :=
        ( List.takeWhile_prefix isWsC).length_le
      rw [List.length_drop] at hrec
      omega
    · rcases ts with - | ⟨t, ts'⟩
      · rw [if_neg hp] at h
        exact absurd h (by simp)
      · rw [if_neg hp] at h
        rw [show (match t :: ts' with
            | [] => none
            | t :: ts' => if p = t then (flexMatchAt ps ts').map (· + 1) else none) =
          if p = t then (flexMatchAt ps ts').map (· + 1) else none from rfl] at h
        by_cases hpt : p = t
        · rw [if_pos hpt] at h
          rcases hm : flexMatchAt ps ts' with - | m
          · rw [hm] at h
            exact absurd h (by simp)
          · rw [hm] at h
            have hn : m + 1 = n := Option.some.inj h
            have := ih hm
            simp only [List.length_cons]
            omega
        · rw [if_neg hpt] at h
          exact absurd h (by simp)

/-- The pattern matches at the head of any text that begins with the
pattern itself (every space of the pattern consumes exactly one space of
the text). -/
lemma flexMatchAt_self (pat : List Char) : ∀ b : List Char,
    (flexMatchAt pat (pat ++ b)).isSome = true := by
  induction pat with
  | nil => intro b; rfl
  | cons p ps ih =>
    intro b
    rw [List.cons_append, flexMatchAt_cons]
    by_cases hp : p = ' '
    · rw [if_pos hp]
      apply tryRun_isSome _ _ 1 _ (le_refl 1) ?hk
      · rw [List.drop_succ_cons, List.drop_zero]
        exact ih b
      · have : isWsC p = true := by rw [hp]; rfl
        rw [List.takeWhile_cons, this]
        simp
    · rw [if_neg hp]
      rw [show (match p :: (ps ++ b) with
          | [] => none
          | t :: ts' => if p = t then (flexMatchAt ps ts').map (· + 1) else none) =
        if p = p then (flexMatchAt ps (ps ++ b)).map (· + 1) else none from rfl,
        if_pos rfl]
      rcases Option.isSome_iff_exists.mp (ih b) with ⟨m, hm⟩
      rw [hm]
      rfl

lemma takeWhile_take (p : Char → Bool) : ∀ (n : Nat) (l : List Char),
    (l.take n).takeWhile p = (l.takeWhile p).take n := by
  intro n l
  induction l generalizing n with
  | nil => simp
  | cons a t ih =>
    cases n with
    | zero => simp
    | succ n =>
      rw [List.take_succ_cons, List.takeWhile_cons, List.takeWhile_cons]
      by_cases hpa : p a = true
      · rw [if_pos hpa, if_pos hpa, List.take_succ_cons, ih]
      · rw [if_neg hpa, if_neg hpa]
        simp

/-- A match found on a truncation of the text is also found (possibly
with a different consumption) on the full text. -/
lemma flexMatchAt_take_isSome {pat : List Char} : ∀ {N : Nat} {u : List Char},
    (flexMatchAt pat (u.take N)).isSome = true → (flexMatchAt pat u).isSome = true := by
  induction pat with
  | nil => intro N u _; rfl
  | cons p ps ih =>
    intro N u h
    rw [flexMatchAt_cons] at h ⊢
    by_cases hp : p = ' '
    · rw [if_pos hp] at h ⊢
      obtain ⟨n, hn⟩ := Option.isSome_iff_exists.mp h
      obtain ⟨j, hj1, hj2, hj3, hj4⟩ := tryRun_sound hn
      rw [List.drop_take] at hj4
      have hS : (flexMatchAt ps (u.drop j)).isSome = true :=
        ih (by rw [hj4]; rfl)
      have hruns : ((u.take N).takeWhile isWsC).length ≤ (u.takeWhile isWsC).length := by
        rw [takeWhile_take]
        rw [List.length_take]
        omega
      exact tryRun_isSome _ _ j _ hj1 (by omega) hS
    · rcases u with - | ⟨t, u'⟩
      · simp only [List.take_nil] at h
        exact h
      · cases N with
        | zero =>
          rw [List.take_zero, if_neg hp] at h
          exact absurd h (by simp)
        | succ N =>
          rw [List.take_succ_cons, if_neg hp] at h
          rw [if_neg hp]
          rw [show (match t :: u'.take N with
              | [] => none
              | t :: ts' => if p = t then (flexMatchAt ps ts').map (· + 1) else none) =
            if p = t then (flexMatchAt ps (u'.take N)).map (· + 1) else none from rfl] at h
          rw [show (match t :: u' with
              | [] => none
              | t :: ts' => if p = t then (flexMatchAt ps ts').map (· + 1) else none) =
            if p = t then (flexMatchAt ps u').map (· + 1) else none from rfl]
          by_cases hpt : p = t
          · rw [if_pos hpt] at h ⊢
            rcases hm : flexMatchAt ps (u'.take N) with - | m
            · rw [hm] at h
              exact absurd h (by simp)
            · obtain ⟨m2, hm2⟩ := Option.isSome_iff_exists.mp (ih (by rw [hm]; rfl))
              rw [hm2]
              rfl
          · rw [if_neg hpt] at h
            exact absurd h (by simp)

/-- Truncating the text at the consumed length of a successful trial
preserves the trial's result. -/
lemma tryRun_take (cont : List Char → Option Nat)
    (hTake : ∀ u m, cont u = some m → cont (u.take m) = some m)
    (hMono : ∀ N u, (cont (u.take N)).isSome = true → (cont u).isSome = true)
    (ts : List Char) : ∀ (k n : Nat), tryRun cont ts k = some n →
      tryRun cont (ts.take n) (min k n) = some n := by
  intro k
  induction k with
  | zero => intro n h; exact absurd h (by simp [tryRun])
  | succ k ih =>
    intro n h
    rw [tryRun_succ] at h
    rcases hc : cont (ts.drop (k + 1)) with - | m
    · rw [hc] at h
      have hik := ih n h
      by_cases hnk : n ≤ k
      · rw [show min (k + 1) n = n from by omega]
        rw [show min k n = n from by omega] at hik
        exact hik
      · rw [show min (k + 1) n = k + 1 from ?hbig]
        case hbig =>
          obtain ⟨j, hj1, hj2, hj3, hj4⟩ := tryRun_sound h
          omega
        rw [show min k n = k from by omega] at hik
        rw [tryRun_succ]
        have hnone : cont ((ts.take n).drop (k + 1)) = none := by
          rcases hx : cont ((ts.take n).drop (k + 1)) with - | m2
          · rfl
          · exfalso
            rw [List.drop_take] at hx
            have := hMono (n - (k + 1)) (ts.drop (k + 1)) (by rw [hx]; rfl)
            rw [hc] at this
            simp at this
        rw [hnone]
        exact hik
    · rw [hc] at h
      have hn : n = k + 1 + m := (Option.some.inj h).symm
      rw [show min (k + 1) n = k + 1 from by omega]
      rw [tryRun_succ]
      have hsome : cont ((ts.take n).drop (k + 1)) = some m := by
        rw [List.drop_take, show n - (k + 1) = m from by omega]
        exact hTake _ _ hc
      rw [hsome]
      rw [hn]

/-- Truncating the text at the consumed length of a successful match
preserves the match: the consumed span itself matches the pattern. -/
lemma flexMatchAt_take {pat : List Char} : ∀ {ts : List Char} {n : Nat},
    flexMatchAt pat ts = some n → flexMatchAt pat (ts.take n) = some n := by
  induction pat with
  | nil =>
    intro ts n h
    have h0 : (0 : Nat) = n := Option.some.inj h
    rw [← h0]
    rfl
  | cons p ps ih =>
    intro ts n h
    rw [flexMatchAt_cons] at h ⊢
    by_cases hp : p = ' '
    · rw [if_pos hp] at h ⊢
      have hT := tryRun_take (fun u => flexMatchAt ps u)
        (fun u m hm => ih hm) (fun N u hh => flexMatchAt_take_isSome hh) ts _ _ h
      have hrun : ((ts.take n).takeWhile isWsC).length =
          min ((ts.takeWhile isWsC).length) n := by
        rw [takeWhile_take, List.length_take, Nat.min_comm]
      rw [hrun]
      exact hT
    · rcases ts with - | ⟨t, ts'⟩
      · rw [if_neg hp] at h
        exact absurd h (by simp)
      · rw [if_neg hp] at h
        rw [show (match t :: ts' with
            | [] => none
            | t :: ts' => if p = t then (flexMatchAt ps ts').map (· + 1) else none) =
          if p = t then (flexMatchAt ps ts').map (· + 1) else none from rfl] at h
        by_cases hpt : p = t
        · rw [if_pos hpt] at h
          rcases hm : flexMatchAt ps ts' with - | m
          · rw [hm] at h
            exact absurd h (by simp)
          · rw [hm] at h
            have hn : m + 1 = n := Option.some.inj h
            rw [← hn, List.take_succ_cons, if_neg hp]
            rw [show (match t :: ts'.take m with
                | [] => none
                | t :: ts' => if p = t then (flexMatchAt ps ts').map (· + 1) else none) =
              if p = t then (flexMatchAt ps (ts'.take m)).map (· + 1) else none from rfl]
            rw [if_pos hpt, ih hm]
            rfl
        · rw [if_neg hpt] at h
          exact absurd h (by simp)

/-- A search hit `[s, e)` lies inside the text, and the pattern matches
at offset `s` consuming `e - s` characters. -/
lemma flexSearchFrom_sound {cit : List Char} : ∀ {ts : List Char} {p s e : Nat},
    flexSearchFrom cit p ts = some (s, e) →
    p ≤ s ∧ s ≤ e ∧ s - p ≤ ts.length ∧
      flexMatchAt cit (ts.drop (s - p)) = some (e - s) := by
  intro ts
  induction ts with
  | nil =>
    intro p s e h
    rw [flexSearchFrom_nil] at h
    rcases hm : flexMatchAt cit [] with - | n
    · rw [hm] at h
      exact absurd h (by simp)
    · rw [hm] at h
      have hpair : (p, p + n) = (s, e) := Option.some.inj h
      have hs : p = s := congrArg Prod.fst hpair
      have he : p + n = e := congrArg Prod.snd hpair
      refine ⟨by omega, by omega, by omega, ?_⟩
      rw [show s - p = 0 from by omega, List.drop_zero, hm]
      congr 1
      omega
  | cons c t ih =>
    intro p s e h
    rw [flexSearchFrom_cons] at h
    rcases hm : flexMatchAt cit (c :: t) with - | n
    · rw [hm] at h
      obtain ⟨h1, h2, h3, h4⟩ := ih h
      refine ⟨by omega, h2, by simp only [List.length_cons]; omega, ?_⟩
      rw [show s - p = (s - (p + 1)) + 1 from by omega, List.drop_succ_cons]
      exact h4
    · rw [hm] at h
      have hpair : (p, p + n) = (s, e) := Option.some.inj h
      have hs : p = s := congrArg Prod.fst hpair
      have he : p + n = e := congrArg Prod.snd hpair
      refine ⟨by omega, by omega, by omega, ?_⟩
      rw [show s - p = 0 from by omega, List.drop_zero, hm]
      congr 1
      omega

/-- If the pattern matches at some offset, the leftmost search succeeds. -/
lemma flexSearchFrom_isSome {cit : List Char} : ∀ {ts : List Char} (p k : Nat),
    (flexMatchAt cit (ts.drop k)).isSome = true →
    (flexSearchFrom cit p ts).isSome = true := by
  intro ts
  induction ts with
  | nil =>
    intro p k h
    rw [List.drop_nil] at h
    obtain ⟨n, hn⟩ := Option.isSome_iff_exists.mp h
    rw [flexSearchFrom_nil, hn]
    rfl
  | cons c t ih =>
    intro p k h
    rw [flexSearchFrom_cons]
    rcases hm : flexMatchAt cit (c :: t) with - | n
    · cases k with
      | zero =>
        rw [List.drop_zero, hm] at h
        exact absurd h (by simp)
      | succ k =>
        rw [List.drop_succ_cons] at h
        exact ih (p + 1) k h
    · rfl

/-- Boolean substring containment, used to state the round-trip claim. -/
def containsSub (needle : List Char) : List Char → Bool
  | [] => needle.isPrefixOf []
  | c :: t => needle.isPrefixOf (c :: t) || containsSub needle t

lemma containsSub_iff (needle : List Char) : ∀ hay : List Char,
    containsSub needle hay = true ↔ ∃ a b, hay = a ++ needle ++ b := by
  intro hay
  induction hay with
  | nil =>
    show needle.isPrefixOf [] = true ↔ _
    rw [ List.isPrefixOf_iff_prefix, List.prefix_nil]
    constructor
    · rintro rfl
      exact ⟨[], [], rfl⟩
    · rintro ⟨a, b, hab⟩
      rcases (List.append_eq_nil.mp hab.symm) with ⟨h1, h2⟩
      exact (List.append_eq_nil.mp h1).2
  | cons c t ih =>
    show (needle.isPrefixOf (c :: t) || containsSub needle t) = true ↔ _
    rw [Bool.or_eq_true, List.isPrefixOf_iff_prefix, ih]
    constructor
    · rintro (⟨b, hb⟩ | ⟨a, b, rfl⟩)
      · exact ⟨[], b, by rw [← hb]; rfl⟩
      · exact ⟨c :: a, b, rfl⟩
    · rintro ⟨a, b, heq⟩
      rcases a with - | ⟨a0, a'⟩
      · left
        exact ⟨b, by simpa using heq.symm⟩
      · right
        refine ⟨a', b, ?_⟩
        have : c :: t = a0 :: (a' ++ needle ++ b) := by simpa using heq
        exact (List.cons.injEq _ _ _ _ ▸ this).2

/-- Does the `ok` excerpt contain a substring matching the
whitespace-flexible citation pattern?  (The search on the excerpt itself
succeeds exactly when such a substring exists.) -/
def okContainsFlex (cit : List Char) : PyResult → Prop
  | .ok ex => (flexSearch cit ex).isSome = true
  | .raised => False

/-- The counterexample text for the round-trip claim: an inexact
(double-spaced) variant of the citation far before a literal occurrence.
The flexible pattern finds the variant first, and the 500-character
window around it ends 100 characters short of the literal occurrence. -/
def farSample : List Char :=
  chars "17  U.S.C. 501" ++ List.replicate 600 ' ' ++ chars "17 U.S.C. 501"

set_option maxRecDepth 40000 in
set_option maxHeartbeats 1000000 in
/-- C2 counterexample: the text contains the literal `"17 U.S.C. 501"`
(at position 614), but the excerpt is the 514-character window around
the leftmost whitespace-flexible hit at position 0, and that excerpt
does not contain the literal citation as a substring. -/
theorem C2_roundtrip_cex :
    containsSub (chars "17 U.S.C. 501") farSample = true ∧
    extract_relevant_text farSample
      { full_citation := some (chars "17 U.S.C. 501") } 500 =
      .ok (pySlice 0 514 farSample) ∧
    containsSub (chars "17 U.S.C. 501") (pySlice 0 514 farSample) = false := by
  refine ⟨by decide, by decide, by decide⟩

/-- C2 amended: for every text and citation record whose full-citation
string occurs literally as a substring of the text, the locator (window
500) returns an excerpt that contains a substring matching the
whitespace-flexible citation pattern (the literal citation with each
internal space widened to a run of whitespace) — though not necessarily
the literal spelling itself, as the counterexample shows. -/
theorem C2_roundtrip_amended (html : List Char) (cm : CitationMatch) (c : List Char)
    (hc : cm.full_citation = some c)
    (hsub : ∃ a b, html = a ++ c ++ b) :
    okContainsFlex c (extract_relevant_text html cm 500) := by
  obtain ⟨a, b, rfl⟩ := hsub
  have hexists : (flexSearch c (a ++ c ++ b)).isSome = true := by
    apply flexSearchFrom_isSome 0 a.length
    rw [List.append_assoc, List.drop_left]
    exact flexMatchAt_self c b
  obtain ⟨⟨s, e⟩, hse⟩ := Option.isSome_iff_exists.mp hexists
  obtain ⟨-, hsle, hslen, hmatch⟩ := flexSearchFrom_sound hse
  rw [Nat.sub_zero] at hslen hmatch
  have hres : extract_relevant_text (a ++ c ++ b) cm 500 =
      .ok (pySlice
        (excerptStart (a ++ c ++ b) (s - 500) (min (a ++ c ++ b).length (e + 500)))
        (min (a ++ c ++ b).length (e + 500)) (a ++ c ++ b)) := by
    unfold extract_relevant_text
    rw [hc]
    dsimp only
    rw [hse]
    dsimp only
    rw [windowExcerpt_eq]
  rw [hres]
  show (flexSearchFrom c 0 (pySlice
    (excerptStart (a ++ c ++ b) (s - 500) (min (a ++ c ++ b).length (e + 500)))
    (min (a ++ c ++ b).length (e + 500)) (a ++ c ++ b))).isSome = true
  have hspan : e - s ≤ (a ++ c ++ b).length - s := by
    have := flexMatchAt_le hmatch
    rw [List.length_drop] at this
    exact this
  have hs2 : excerptStart (a ++ c ++ b) (s - 500) (min (a ++ c ++ b).length (e + 500)) ≤ s :=
    le_trans (excerptStart_le _ _ _) (le_trans (Nat.sub_le s 500) (le_refl s))
  have hstop : e ≤ min (a ++ c ++ b).length (e + 500) := by omega
  apply flexSearchFrom_isSome 0
    (s - excerptStart (a ++ c ++ b) (s - 500) (min (a ++ c ++ b).length (e + 500)))
  have hkey : (pySlice
      (excerptStart (a ++ c ++ b) (s - 500) (min (a ++ c ++ b).length (e + 500)))
      (min (a ++ c ++ b).length (e + 500)) (a ++ c ++ b)).drop
        (s - excerptStart (a ++ c ++ b) (s - 500) (min (a ++ c ++ b).length (e + 500))) =
      ((a ++ c ++ b).drop s).take (min (a ++ c ++ b).length (e + 500) - s) := by
    unfold pySlice
    rw [List.drop_drop]
    rw [show excerptStart (a ++ c ++ b) (s - 500) (min (a ++ c ++ b).length (e + 500)) +
      (s - excerptStart (a ++ c ++ b) (s - 500) (min (a ++ c ++ b).length (e + 500))) = s
      from by omega]
    rw [List.drop_take]
  rw [hkey]
  have htake : flexMatchAt c (((a ++ c ++ b).drop s).take (e - s)) = some (e - s) :=
    flexMatchAt_take hmatch
  have hnest : ((a ++ c ++ b).drop s).take (e - s) =
      ((((a ++ c ++ b).drop s).take (min (a ++ c ++ b).length (e + 500) - s)).take (e - s)) := by
    rw [List.take_take,
      show min (e - s) (min (a ++ c ++ b).length (e + 500) - s) = e - s from by omega]
  rw [hnest] at htake
  exact flexMatchAt_take_isSome (by rw [htake]; rfl)

theorem C2_roundtrip_amended_witness :
    okContainsFlex (chars "17 U.S.C. 501")
      (extract_relevant_text (chars "x 17 U.S.C. 501 y")
        { full_citation := some (chars "17 U.S.C. 501") } 500) :=
  C2_roundtrip_amended (chars "x 17 U.S.C. 501 y")
    { full_citation := some (chars "17 U.S.C. 501") } (chars "17 U.S.C. 501") rfl
    ⟨chars "x ", chars " y", by decide⟩
